import Mathlib

/-!
Verification of the Dex job-search engine: identity reconciliation,
incremental enrichment, digest reconciliation and the application
lifecycle tracker.

The definitions below are shallow embeddings of the JavaScript sources:

* `.scripts/job-search/install-job-tracker.sh` (second embedded script:
  `scrape-linkedin-search-playwright.cjs`): `normalizeTitle`, `getJobId`,
  `getJobViewUrl`, `isJobsSimilarLink`, `isNonPmRole`, and the per-link
  admission/merge step of `runScrape` (here `processItem`).
* `parse-linkedin-job-emails.cjs` (src/unnamed/part_002): relevance and
  exclusion filters, `getExcludedJobIdsFromPreviousDigests`, and the
  email-path digest assembly in `main`.
* `fetch-remote-pm-rss.cjs`: `isProductRole`, `sanitizeTitleForMarkdown`,
  the feed-collection loop and the merge of the RSS block into the digest.
* `filter-digest-remote-playwright.cjs`: the `runFilter` batch loop with
  its checkpoint store (`digest-filter-state.json`) and persistence points.
* `track-application.js`: `updateStatus` and the per-application field
  updates.
* `deduplicate-applications.js`: `deduplicateApplications`.

Conventions: JavaScript strings are Lean `String`s and the scripts only
ever handle ASCII/BMP text here, so `.length` is `.data.length`; dates are
modelled as milliseconds since the epoch (the value of `new Date(s)`),
so `Math.floor((b - a) / 86400000)` is `Int.fdiv (b - a) 86400000`; JS
`Map`/object dictionaries are association lists with unique keys; a JS
`null`/absent value is `Option.none` and the empty string is used exactly
where the code uses `''`.
-/

/-- Length of a JS string (UTF-16 code units; all inputs here are BMP). -/
def jsLen (s : String) : Nat := s.data.length

/-- Lowercase a character list (JS `toLowerCase` on the ASCII text used here). -/
def lowerChars (cs : List Char) : List Char := cs.map Char.toLower

/-- Does the second list start with the first list? -/
def listStarts : List Char → List Char → Bool
  | [], _ => true
  | _ :: _, [] => false
  | p :: ps, c :: cs => p == c && listStarts ps cs

/-- JS `String.prototype.includes`: does `cs` contain `pat` as a contiguous run? -/
def hasSubAux (pat : List Char) : List Char → Bool
  | [] => pat.isEmpty
  | c :: cs => listStarts pat (c :: cs) || hasSubAux pat cs

/-- JS `s.includes(pat)` on strings. -/
def strIncludes (s pat : String) : Bool := hasSubAux pat.data s.data

/-- Strip leading and trailing whitespace (JS `trim`). -/
def trimChars (cs : List Char) : List Char :=
  ((cs.dropWhile Char.isWhitespace).reverse.dropWhile Char.isWhitespace).reverse

/-- JS `replace(/\s+/g, ' ')`: collapse each whitespace run to one space.
`prevWS` records whether the previous character was part of a run. -/
def collapseWSAux : Bool → List Char → List Char
  | _, [] => []
  | prevWS, c :: cs =>
    if c.isWhitespace then
      if prevWS then collapseWSAux true cs else ' ' :: collapseWSAux true cs
    else c :: collapseWSAux false cs

/-- JS `replace(/\s+with verification\s*$/i, '')` from `normalizeTitle`:
drop an optional trailing whitespace run, a case-insensitive
`with verification`, and the mandatory whitespace run before it. -/
def stripVerificationSuffix (cs : List Char) : List Char :=
  let rev := cs.reverse
  let rev1 := rev.dropWhile Char.isWhitespace
  let pat := ("with verification".data).reverse
  if listStarts pat (lowerChars rev1) then
    let rest := rev1.drop pat.length
    match rest with
    | [] => cs
    | r :: _ =>
      if r.isWhitespace then (rest.dropWhile Char.isWhitespace).reverse else cs
  else cs

/-- `normalizeTitle` from the scrape script: strip the verification suffix,
trim, collapse whitespace, collapse an exact back-to-back doubled phrase
(only when each half is longer than 10 chars), cap at 200 chars, and fall
back to the placeholder `View job` for empty input. -/
def normalizeTitle (title : String) : String :=
  if title.data.isEmpty then "View job"
  else
    let t := collapseWSAux false (trimChars (stripVerificationSuffix title.data))
    let half := t.length / 2
    let t := if half > 10 && (t.take half == (t.drop half).take half) then t.take half else t
    if t.length > 0 then String.mk (t.take 200) else "View job"

/-- `getJobId`: first occurrence of `/jobs/view/` followed by at least one
digit; returns the maximal digit run (regex `\/jobs\/view\/(\d+)`). -/
def getJobIdAux : List Char → Option String
  | [] => none
  | c :: cs =>
    let lit := "/jobs/view/".data
    if listStarts lit (c :: cs) then
      let ds := ((c :: cs).drop lit.length).takeWhile Char.isDigit
      if ds.isEmpty then getJobIdAux cs else some (String.mk ds)
    else getJobIdAux cs

/-- `getJobId` on a URL string. -/
def getJobId (url : String) : Option String := getJobIdAux url.data

/-- `getJobViewUrl` (scrape script): canonical view URL, `null` when no id. -/
def getJobViewUrl (url : String) : Option String :=
  match getJobId url with
  | some id => some ("https://www.linkedin.com/comm/jobs/view/" ++ id)
  | none => none

/-- `isJobsSimilarLink`: regex `^jobs similar to\s` (case-insensitive) on the
trimmed title. -/
def isJobsSimilarLink (title : String) : Bool :=
  let t := lowerChars (trimChars title.data)
  let lit := "jobs similar to".data
  listStarts lit t &&
    (match t.drop lit.length with
     | c :: _ => c.isWhitespace
     | [] => false)

/-- Regex word character `\w` = `[A-Za-z0-9_]`. -/
def isWordChar (c : Char) : Bool := c.isAlphanum || c == '_'

/-- Wordness of an optional character; a string edge counts as non-word. -/
def wordAt : Option Char → Bool
  | some c => isWordChar c
  | none => false

/-- Regex `\b`: a boundary sits between two positions of differing wordness. -/
def bnd (l r : Option Char) : Bool := wordAt l != wordAt r

/-- Token of the small regex fragments used by the role classifiers:
a literal, an optional single character (`k?`), or a whitespace run (`\s+`). -/
inductive RTok where
  | lit (s : String)
  | opt (c : Char)
  | wsp
deriving Repr

/-- Match a token sequence at the head of `cs`, returning the rest on
success; `opt` backtracks (greedy first, as the regex engine does). -/
def rtokRun : List RTok → List Char → Option (List Char)
  | [], cs => some cs
  | RTok.lit s :: ts, cs =>
    if listStarts s.data cs then rtokRun ts (cs.drop s.data.length) else none
  | RTok.opt c :: ts, cs =>
    match cs with
    | [] => rtokRun ts []
    | c2 :: rest =>
      if c2 == c then
        match rtokRun ts rest with
        | some r => some r
        | none => rtokRun ts (c2 :: rest)
      else rtokRun ts (c2 :: rest)
  | RTok.wsp :: ts, cs =>
    let ws := cs.takeWhile Char.isWhitespace
    if ws.isEmpty then none else rtokRun ts (cs.drop ws.length)

/-- Search for `\b(alt1|alt2|…)\b`: some alternative matches at some position
with a word boundary on each side. `prev` is the character before the
current position. -/
def hasWordBndMatch (alts : List (List RTok)) : Option Char → List Char → Bool
  | _, [] => false
  | prev, c :: cs =>
    (alts.any fun alt =>
      match rtokRun alt (c :: cs) with
      | some rest =>
        let whole := c :: cs
        let matched := whole.take (whole.length - rest.length)
        bnd prev (some c) && bnd matched.getLast? rest.head?
      | none => false)
    || hasWordBndMatch alts (some c) cs

/-- Search for `cpo\b`: the literal `cpo` with a word boundary after it
(the regex alternative has no boundary before it). -/
def hasCpoTail : List Char → Bool
  | [] => false
  | c :: cs =>
    (listStarts "cpo".data (c :: cs) && !wordAt ((c :: cs).drop 3).head?)
    || hasCpoTail cs

/-- First alternation of `isNonPmRole`: titles that are kept as PM roles. -/
def pmKeepMatch (t : List Char) : Bool :=
  hasSubAux "product manager".data t || hasSubAux "product owner".data t ||
  hasSubAux "head of product".data t || hasCpoTail t ||
  hasSubAux "chief product".data t || hasSubAux "compliance manager".data t

/-- Engineering-role alternatives of `isNonPmRole` (second regex). -/
def engAlts : List (List RTok) :=
  [[RTok.lit "software engineer"], [RTok.lit "c# engineer"], [RTok.lit ".net engineer"],
   [RTok.lit "java engineer"], [RTok.lit "r&d engineer"], [RTok.lit "backend engineer"],
   [RTok.lit "frontend engineer"],
   [RTok.lit "fullstac", RTok.opt 'k', RTok.wsp, RTok.lit "engineer"],
   [RTok.lit "devops engineer"], [RTok.lit "qa engineer"], [RTok.lit "data engineer"],
   [RTok.lit "ml engineer"], [RTok.lit "game engineer"]]

/-- Developer-role alternatives of `isNonPmRole` (third regex). -/
def devAlts : List (List RTok) :=
  [[RTok.lit "backend developer"], [RTok.lit "frontend developer"],
   [RTok.lit "fullstac", RTok.opt 'k', RTok.wsp, RTok.lit "developer"],
   [RTok.lit ".net developer"], [RTok.lit "java developer"], [RTok.lit "c# developer"]]

/-- `isNonPmRole` from the scrape script (the email parser has the same body
on `job.title`): PM/product titles are kept; engineering/developer titles
are excluded. -/
def isNonPmRole (title : String) : Bool :=
  let t := lowerChars title.data
  if pmKeepMatch t then false
  else if hasWordBndMatch engAlts none t then true
  else if hasWordBndMatch devAlts none t then true
  else if hasWordBndMatch [[RTok.lit "developer"]] none t && !hasSubAux "product".data t then true
  else false

/-- One entry of the scrape run's `jobById` map: canonical view URL and the
best title seen so far. -/
structure JobEntry where
  viewUrl : String
  title : String
deriving Repr, DecidableEq

/-- A raw scraped link: anchor href and anchor text. -/
structure RawItem where
  href : String
  title : String
deriving Repr, DecidableEq

/-- Lookup in the `jobById` association list (a JS `Map` with unique keys). -/
def lookupEntry (id : String) : List (String × JobEntry) → Option JobEntry
  | [] => none
  | (k, v) :: rest => if k == id then some v else lookupEntry id rest

/-- Replace the entry for `id` (JS `Map.set` on an existing key). -/
def setEntry (id : String) (e : JobEntry) : List (String × JobEntry) → List (String × JobEntry)
  | [] => []
  | (k, v) :: rest => if k == id then (k, e) :: rest else (k, v) :: setEntry id e rest

/-- One iteration of the `runScrape` link loop: extract the id, drop records
that are already in the digest, `Jobs similar to…` links and non-PM roles,
then insert a new entry or upgrade the stored title only when the incoming
normalized title is not the placeholder and either the stored title is the
placeholder or the incoming one is strictly longer. -/
def processItem (existingIds : List String) (jobById : List (String × JobEntry))
    (item : RawItem) : List (String × JobEntry) :=
  match getJobViewUrl item.href with
  | none => jobById
  | some viewUrl =>
    match getJobId viewUrl with
    | none => jobById
    | some id =>
      if existingIds.contains id then jobById
      else if isJobsSimilarLink item.title then jobById
      else
        let nt := normalizeTitle item.title
        if isNonPmRole nt then jobById
        else
          match lookupEntry id jobById with
          | none => jobById ++ [(id, ⟨viewUrl, nt⟩)]
          | some existing =>
            if nt != "View job" && (existing.title == "View job" || jsLen nt > jsLen existing.title)
            then setEntry id ⟨existing.viewUrl, nt⟩ jobById
            else jobById

/-! ## Application Lifecycle Tracker (`track-application.js`) -/

/-- Milliseconds per day, the divisor in `response_days`. -/
def msPerDay : Int := 1000 * 60 * 60 * 24

/-- One `status_history` entry. Dates are ms since the epoch (see header). -/
structure HistoryEntry where
  status : String
  date : Int
  notes : String
deriving Repr, DecidableEq

/-- An application record as stored in `applications-tracker.json`. -/
structure Application where
  id : String
  date_applied : Int
  role : String
  company : String
  source : String
  url : String
  jobId : Option String
  location : String
  industry : String
  status : String
  status_history : List HistoryEntry
  response_date : Option Int
  response_days : Option Int
  interview_dates : List Int
  offer_date : Option Int
  rejection_date : Option Int
  feedback_type : Option String
  feedback_text : Option String
  notes : String
  tags : List String
deriving Repr, DecidableEq

/-- `meta` block of the tracker file. -/
structure TrackerMeta where
  version : String
  created : Int
  last_updated : Int
deriving Repr, DecidableEq

/-- The tracker file: meta block plus the list of applications. -/
structure Tracker where
  meta : TrackerMeta
  applications : List Application
deriving Repr, DecidableEq

/-- The per-application mutation performed by `updateStatus` once the record
is found (lines 141-172): set `status`, append to `status_history`, then the
status-specific fields: `response_date`/`response_days` only when
`response_date` is still unset, `interview_dates` idempotently,
`offer_date`/`rejection_date` unconditionally, and append dated notes. -/
def applyStatusUpdate (app : Application) (newStatus : String) (updateDate : Int)
    (notes : String) : Application :=
  let app := { app with
    status := newStatus,
    status_history := app.status_history ++ [⟨newStatus, updateDate, notes⟩] }
  let app :=
    if newStatus == "responded" && app.response_date == none then
      { app with
        response_date := some updateDate,
        response_days := some (Int.fdiv (updateDate - app.date_applied) msPerDay) }
    else app
  let app :=
    if newStatus == "interview" then
      if app.interview_dates.contains updateDate then app
      else { app with interview_dates := app.interview_dates ++ [updateDate] }
    else app
  let app := if newStatus == "offer" then { app with offer_date := some updateDate } else app
  let app := if newStatus == "rejected" then { app with rejection_date := some updateDate } else app
  let app :=
    if notes != "" then
      { app with notes :=
          (if app.notes != "" then app.notes ++ "\n\n" else "") ++ toString updateDate ++ ": " ++ notes }
    else app
  app

/-- Replace the first application whose id matches (the JS code mutates the
object returned by `applications.find`). -/
def replaceFirstApp (applicationId : String) (app2 : Application) :
    List Application → List Application
  | [] => []
  | a :: rest =>
    if a.id == applicationId then app2 :: rest
    else a :: replaceFirstApp applicationId app2 rest

/-- Result of `updateStatus`: the tracker file on disk after the call,
whether `saveTracker` ran, and the returned value (`null` when not found). -/
structure UpdateResult where
  tracker : Tracker
  written : Bool
  result : Option Application
deriving Repr, DecidableEq

/-- `updateStatus(applicationId, newStatus, date, notes)` against a tracker
state, with `today` the current date: when no application matches, it logs
and returns `null` without calling `saveTracker`; otherwise it mutates the
found record, saves (which stamps `meta.last_updated` with today) and
returns the record. `date = none` models a `null`/empty date argument. -/
def updateStatus (tracker : Tracker) (applicationId newStatus : String)
    (date : Option Int) (notes : String) (today : Int) : UpdateResult :=
  match tracker.applications.find? (fun a => a.id == applicationId) with
  | none => ⟨tracker, false, none⟩
  | some app =>
    let updateDate := date.getD today
    let app2 := applyStatusUpdate app newStatus updateDate notes
    let saved : Tracker :=
      { meta := { tracker.meta with last_updated := today },
        applications := replaceFirstApp applicationId app2 tracker.applications }
    ⟨saved, true, some app2⟩

/-! ## Application deduplication (`deduplicate-applications.js`) -/

/-- `statusOrder` lookup: the JS object maps only these five statuses;
any other status (notably `withdrawn`) yields `undefined`. -/
def statusOrder : String → Option Nat
  | "applied" => some 0
  | "responded" => some 1
  | "interview" => some 2
  | "offer" => some 3
  | "rejected" => some 4
  | _ => none

/-- Step 1 of the duplicate merge (lines 69-71): fill a missing `jobId`. -/
def mergeJobId (main other : Application) : Application :=
  if other.jobId.isSome && main.jobId == none then { main with jobId := other.jobId } else main

/-- Step 2 (lines 72-74): fill a missing `url`. -/
def mergeUrl (main other : Application) : Application :=
  if other.url != "" && main.url == "" then { main with url := other.url } else main

/-- Step 3 (lines 77-80): upgrade the role when the other one is real
(`other.role` non-empty and not `Unknown Role`) and the main one is
`Unknown Role` or strictly shorter. -/
def mergeRole (main other : Application) : Application :=
  if other.role != "" && other.role != "Unknown Role" &&
      (main.role == "Unknown Role" || jsLen main.role < jsLen other.role) then
    { main with role := other.role }
  else main

/-- Step 4 (lines 83-85): fill a missing `location`. -/
def mergeLocation (main other : Application) : Application :=
  if other.location != "" && main.location == "" then { main with location := other.location } else main

/-- Step 5 (lines 87-92): take the status of `other` and concatenate the
histories only when `statusOrder[other.status] > statusOrder[main.status]`,
a JS comparison that is `false` whenever either lookup is `undefined`
(notably for `withdrawn`). -/
def mergeStatus (main other : Application) : Application :=
  match statusOrder other.status, statusOrder main.status with
  | some o, some m =>
    if o > m then
      { main with status := other.status,
                  status_history := main.status_history ++ other.status_history }
    else main
  | _, _ => main

/-- Step 6 (lines 95-97): append unseen notes. -/
def mergeNotes (main other : Application) : Application :=
  if other.notes != "" && !strIncludes main.notes other.notes then
    { main with notes := (if main.notes != "" then main.notes ++ "\n\n" else "") ++ other.notes }
  else main

/-- Merge one duplicate (`other`) into the primary record (`main`): the
six consecutive if-blocks of the `deduplicateApplications` loop body
(lines 65-102), applied in source order. -/
def mergeOther (main other : Application) : Application :=
  mergeNotes (mergeStatus (mergeLocation (mergeRole (mergeUrl (mergeJobId main other) other) other) other) other) other

/-- Company grouping key: `company.toLowerCase().trim()`. -/
def companyKey (a : Application) : String :=
  String.mk (trimChars (lowerChars a.company.data))

/-- The stable sort `companyApps.sort(...)` that puts `company_site` records
first: with that comparator a stable sort is exactly this partition. -/
def sortCompanySiteFirst (apps : List Application) : List Application :=
  apps.filter (fun a => a.source == "company_site") ++
  apps.filter (fun a => !(a.source == "company_site"))

/-- Merge one duplicate group: the first record after sorting is the
primary; the rest are folded in and marked for removal. -/
def dedupGroup (apps : List Application) : Option (Application × List String) :=
  match sortCompanySiteFirst apps with
  | [] => none
  | main :: others => some (others.foldl mergeOther main, others.map (fun a => a.id))

/-- Build `byCompany` in insertion order: the list of groups, each keyed by
`companyKey`, keys ordered by first appearance, members in list order. -/
def groupByCompany (apps : List Application) : List (String × List Application) :=
  apps.foldl
    (fun acc a =>
      let key := companyKey a
      if (acc.find? (fun p => p.1 == key)).isSome then
        acc.map (fun p => if p.1 == key then (p.1, p.2 ++ [a]) else p)
      else acc ++ [(key, [a])])
    []

/-- `deduplicateApplications` on the applications list: groups with more
than one record are merged; the absorbed records are removed and each
primary is replaced by its merged version. When there are no duplicate
groups the function returns early and the list is untouched. -/
def deduplicateApplications (apps : List Application) : List Application :=
  let duplicates := (groupByCompany apps).filter (fun p => p.2.length > 1)
  if duplicates.isEmpty then apps
  else
    let mergedAndRemoved := duplicates.filterMap (fun p => dedupGroup p.2)
    let toRemove := mergedAndRemoved.foldl (fun acc p => acc ++ p.2) []
    let deduplicated := apps.filter (fun a => !toRemove.contains a.id)
    mergedAndRemoved.foldl (fun acc p => replaceFirstApp p.1.id p.1 acc) deduplicated

/-! ## Digest assembly and cross-digest exclusion
(`parse-linkedin-job-emails.cjs`, `fetch-remote-pm-rss.cjs`) -/

/-- A job record in the email-parser pipeline after link extraction. -/
structure EmailJob where
  url : String
  title : String
  company : String
  workType : String
deriving Repr, DecidableEq

/-- Stable insert for the descending sort `sort((a, b) => b.score - a.score)`
(JS array sort is stable, so equal scores keep their original order). -/
def insertByScoreDesc (x : EmailJob × Int) : List (EmailJob × Int) → List (EmailJob × Int)
  | [] => [x]
  | y :: ys => if x.2 ≥ y.2 then x :: y :: ys else y :: insertByScoreDesc x ys

/-- The stable descending sort by score. -/
def sortByScoreDesc (l : List (EmailJob × Int)) : List (EmailJob × Int) :=
  l.foldr insertByScoreDesc []

/-- Parse one line against the applied/rejected scan regex of
`getExcludedJobIdsFromPreviousDigests`:
`^- \[(x|-)\] \[[^\]]*\]\((https?:[^)]+)\)` (not anchored at the end).
Returns the captured URL. -/
def appliedLineUrl (line : String) : Option String :=
  let cs := line.data
  if !listStarts "- [".data cs then none else
  match cs.drop 3 with
  | [] => none
  | m :: cs2 =>
    if !(m == 'x' || m == '-') then none else
    if !listStarts "] [".data cs2 then none else
    let cs3 := cs2.drop 3
    let label := cs3.takeWhile (fun c => c != ']')
    let cs4 := cs3.drop label.length
    if !listStarts "](".data cs4 then none else
    let cs5 := cs4.drop 2
    let url := cs5.takeWhile (fun c => c != ')')
    if url.isEmpty then none else
    if !(listStarts "http:".data url || listStarts "https:".data url) then none else
    match cs5.drop url.length with
    | ')' :: _ => some (String.mk url)
    | _ => none

/-- `getExcludedJobIdsFromPreviousDigests`: scan every prior digest (as a
list of lines) for applied/rejected lines and collect their job ids (the
JS `Set` is a list used only through membership). -/
def excludedIdsFrom (digests : List (List String)) : List String :=
  digests.foldl
    (fun acc d =>
      d.foldl
        (fun acc2 l =>
          match appliedLineUrl l with
          | some url =>
            match getJobId url with
            | some id => acc2 ++ [id]
            | none => acc2
          | none => acc2)
        acc)
    []

/-- Membership test `excludedIds.has(getJobId(url))`; `has(null)` is false. -/
def inExcluded (excludedIds : List String) (url : String) : Bool :=
  match getJobId url with
  | some id => excludedIds.contains id
  | none => false

/-- The email-parser digest assembly from `results` onward (main, lines
477-491): keep only real postings (`/jobs/view/` in the URL), attach the
relevance score (the ranking score is external to this core per the spec,
so it is a parameter), sort by score descending, drop identities excluded
by earlier digests, and split into the `Best match` (score ≥ 5) and
`Other` sections, in that order. -/
def emailDigestJobs (score : EmailJob → Int) (results : List EmailJob)
    (excludedIds : List String) : List EmailJob × List EmailJob :=
  let withScore := (results.filter (fun j => strIncludes j.url "/jobs/view/")).map
    (fun j => (j, score j))
  let sorted := sortByScoreDesc withScore
  let kept := sorted.filter (fun p => !inExcluded excludedIds p.1.url)
  ((kept.filter (fun p => p.2 ≥ 5)).map (fun p => p.1),
   (kept.filter (fun p => p.2 < 5)).map (fun p => p.1))

/-- Parse a digest job line against `JOB_LINE_RE`
(`^(- \[[ x\-]\] \[)([^\]]*)(\]\()(https?:[^)]+)(\))$`, anchored both
ends; marker space/x/dash) and return its URL. -/
def jobLineUrl (line : String) : Option String :=
  let cs := line.data
  if !listStarts "- [".data cs then none else
  match cs.drop 3 with
  | [] => none
  | m :: cs2 =>
    if !(m == ' ' || m == 'x' || m == '-') then none else
    if !listStarts "] [".data cs2 then none else
    let cs3 := cs2.drop 3
    let label := cs3.takeWhile (fun c => c != ']')
    let cs4 := cs3.drop label.length
    if !listStarts "](".data cs4 then none else
    let cs5 := cs4.drop 2
    let url := cs5.takeWhile (fun c => c != ')')
    if url.isEmpty then none else
    if !(listStarts "http:".data url || listStarts "https:".data url) then none else
    match cs5.drop url.length with
    | [')'] => some (String.mk url)
    | _ => none

/-- A parsed feed item (RSS/Atom/API) from `fetch-remote-pm-rss.cjs`. -/
structure FeedItem where
  title : String
  link : String
deriving Repr, DecidableEq

/-- `PM_TITLE_INCLUDE` from `fetch-remote-pm-rss.cjs`. -/
def pmTitleInclude : List String :=
  ["product manager", "product lead", "head of product", "cpo", "chief product officer",
   "product owner", "product director", "product head", "growth product",
   "technical product manager", "senior product manager", "lead product manager",
   "principal product manager", "product specialist", "director of product",
   "vp product", "vice president product", "product management"]

/-- `PM_TITLE_EXCLUDE` from `fetch-remote-pm-rss.cjs`. -/
def pmTitleExclude : List String :=
  ["account executive", "sales manager", "sales representative", "business development",
   "support engineer", "customer support", "client support", "tier 1 support",
   "tier 2 support", "wordpress developer", "software engineer", "developer",
   "devsecops", "devops", "qa analyst", "quality assurance", "werkstudent",
   "intern ", " intern", "product engineer", "product developer"]

/-- `isProductRole`: an include keyword and no exclude keyword (plain
substring tests on the lowercased title). -/
def isProductRole (title : String) : Bool :=
  let t := lowerChars title.data
  (pmTitleInclude.any fun kw => hasSubAux kw.data t) &&
  !(pmTitleExclude.any fun kw => hasSubAux kw.data t)

/-- `sanitizeTitleForMarkdown`: pipes to spaces, whitespace collapsed,
trimmed, capped at 120 chars. -/
def sanitizeTitleForMarkdown (title : String) : String :=
  String.mk ((trimChars (collapseWSAux false
    (title.data.map (fun c => if c == '|' then ' ' else c)))).take 120)

/-- The per-feed collection loop of `fetch-remote-pm-rss.cjs` `main`:
skip empty or already-seen URLs and non-product titles; keep
`(sanitized title, url)` pairs in order. No exclusion set is consulted. -/
def rssKeepAux : List FeedItem → List String → List (String × String) → List (String × String)
  | [], _, acc => acc
  | item :: rest, seen, acc =>
    let url := String.mk (trimChars item.link.data)
    if url == "" || seen.contains url then rssKeepAux rest seen acc
    else if !isProductRole item.title then rssKeepAux rest seen acc
    else rssKeepAux rest (seen ++ [url]) (acc ++ [(sanitizeTitleForMarkdown item.title, url)])

/-- Entries kept from one feed, starting from an empty seen-set. -/
def rssKept (items : List FeedItem) : List (String × String) := rssKeepAux items [] []

/-- The job lines written for one feed:
`- [ ] [${title} · ${feedId}](${url})` (no location for RSS feeds). -/
def rssJobLines (feedId : String) (kept : List (String × String)) : List String :=
  kept.map (fun e =>
    let display := if e.1 != "" then e.1 ++ " · " ++ feedId else feedId
    "- [ ] [" ++ display ++ "](" ++ e.2 ++ ")")

/-- The RSS section block appended to the digest (section header, the
per-feed header, then the job lines), modelled at line granularity. -/
def rssBlockLines (feedId : String) (kept : List (String × String)) : List String :=
  "## Remote job boards (RSS)" ::
  ("### " ++ feedId ++ " (" ++ toString kept.length ++ ")") ::
  rssJobLines feedId kept

/-- The merge of the RSS block into the main digest (`main`, lines
444-457): if the section is already present the merge is skipped,
otherwise the block is appended. No exclusion set is consulted. -/
def mergeRssIntoDigest (mainLines blockLines : List String) : List String :=
  if mainLines.any (fun l => strIncludes l "## Remote job boards (RSS)") then mainLines
  else mainLines ++ blockLines

/-! ## Enrichment batch loop (`filter-digest-remote-playwright.cjs`) -/

/-- One record of the checkpoint store `digest-filter-state.json`:
either `{ remove: true }` or `{ remove: false, newLine }`. -/
structure FilterRec where
  remove : Bool
  newLine : Option String
deriving Repr, DecidableEq

/-- The decision the loop body derives from one fetched job page. Per the
spec the page fetch and classification is the external enrichment
collaborator, so it is a parameter of the loop: `unavailable` is a
login/authwall result (detected on the final URL or the page body),
`failed` a navigation error (the `catch` branch), `closed` a closed
posting, `removeType` a hybrid/on-site work type, and `keep` the enriched
replacement line for a remote/unknown posting. -/
inductive EnrichOutcome where
  | unavailable
  | failed
  | closed
  | removeType
  | keep (newLine : String)
deriving Repr, DecidableEq

/-- The checkpoint record written for an outcome; `none` means the store
is left untouched (authwall and error outcomes write nothing). -/
def recordFor : EnrichOutcome → Option FilterRec
  | EnrichOutcome.closed => some ⟨true, none⟩
  | EnrichOutcome.removeType => some ⟨true, none⟩
  | EnrichOutcome.keep nl => some ⟨false, some nl⟩
  | EnrichOutcome.unavailable => none
  | EnrichOutcome.failed => none

/-- Lookup in the checkpoint store (`stateResults[jobId]`). -/
def lookupRec (id : String) : List (String × FilterRec) → Option FilterRec
  | [] => none
  | (k, v) :: rest => if k == id then some v else lookupRec id rest

/-- Observable events of one `runFilter` invocation: an item fully
processed (its record added to the in-memory store), or a durable write
(`writeDigestFromState` followed by `saveFilterState`, which the code
always performs together) with the snapshot written. -/
inductive RunEvent where
  | processed (jobId : String)
  | persisted (snapshot : List (String × FilterRec))
deriving Repr, DecidableEq

/-- In-memory state of one `runFilter` invocation. -/
structure RunState where
  stateResults : List (String × FilterRec)
  processedThisRun : Nat
  events : List RunEvent
deriving Repr, DecidableEq

/-- `DEFAULT_BATCH_SIZE` (the periodic-save interval in unlimited mode). -/
def defaultBatchSize : Nat := 15

/-- `hitBatchLimit` (line 381): `batchSize < Infinity && processedThisRun >=
batchSize`, with `none` standing for `Number.POSITIVE_INFINITY`. -/
def batchHit : Option Nat → Nat → Bool
  | some b, p => decide (p ≥ b)
  | none, _ => false

/-- `periodicSave` (line 382): in unlimited mode, save after every
`DEFAULT_BATCH_SIZE`-th processed item (`processedThisRun` is positive
whenever this is consulted, having just been incremented). -/
def periodicSave : Option Nat → Nat → Bool
  | batchSize, p => batchSize == none && p % defaultBatchSize == 0

/-- The `runFilter` batch loop (lines 323-407), with the page
fetch/classification as the `enrich` collaborator and `batchSize = none`
for `Number.POSITIVE_INFINITY`: items already in the store are skipped;
an unavailable or failed item writes nothing and the loop continues;
otherwise the record is stored and the counter incremented; the digest
and the store are persisted when the batch limit is hit (then the run
returns), after every 15th processed item in unlimited mode, and at the
end of the loop. -/
def runFilterLoop (enrich : String → EnrichOutcome) (batchSize : Option Nat) :
    List String → RunState → RunState
  | [], st => { st with events := st.events ++ [RunEvent.persisted st.stateResults] }
  | id :: rest, st =>
    if (lookupRec id st.stateResults).isSome then runFilterLoop enrich batchSize rest st
    else
      match recordFor (enrich id) with
      | none => runFilterLoop enrich batchSize rest st
      | some r =>
        let st1 : RunState :=
          { stateResults := st.stateResults ++ [(id, r)],
            processedThisRun := st.processedThisRun + 1,
            events := st.events ++ [RunEvent.processed id] }
        if batchHit batchSize st1.processedThisRun then
          { st1 with events := st1.events ++ [RunEvent.persisted st1.stateResults] }
        else if periodicSave batchSize st1.processedThisRun then
          runFilterLoop enrich batchSize rest
            { st1 with events := st1.events ++ [RunEvent.persisted st1.stateResults] }
        else runFilterLoop enrich batchSize rest st1

/-- Does every `processed` event have a `persisted` event immediately
after it? This is the write-after-each-item discipline. -/
def immediatelyPersisted : List RunEvent → Bool
  | [] => true
  | RunEvent.processed _ :: rest =>
    match rest with
    | RunEvent.persisted _ :: _ => immediatelyPersisted rest
    | _ => false
  | RunEvent.persisted _ :: rest => immediatelyPersisted rest

/-- Number of durable writes in an event list. -/
def countPersists : List RunEvent → Nat
  | [] => 0
  | RunEvent.persisted _ :: rest => countPersists rest + 1
  | RunEvent.processed _ :: rest => countPersists rest

/-! ## Concrete records used to instantiate the theorems -/

/-- A freshly added application as `addApplication` creates it
(`status: applied`, one history entry, all derived fields unset). -/
def baseApp : Application :=
  { id := "app-1", date_applied := 0, role := "Product Manager", company := "Acme",
    source := "linkedin", url := "", jobId := none, location := "", industry := "",
    status := "applied", status_history := [⟨"applied", 0, ""⟩], response_date := none,
    response_days := none, interview_dates := [], offer_date := none,
    rejection_date := none, feedback_type := none, feedback_text := none,
    notes := "", tags := [] }

/-- Duplicate pair for the merge scenarios: record created from a digest mark. -/
def digestApp : Application :=
  { baseApp with id := "app-1", source := "linkedin",
                 status_history := [⟨"applied", 0, "from digest"⟩] }

/-- Duplicate pair: record created by the Applied-folder scan two days later. -/
def folderApp : Application :=
  { baseApp with id := "app-2", source := "company_site",
                 date_applied := 2 * msPerDay,
                 status_history := [⟨"applied", 2 * msPerDay, "from folder scan"⟩] }

/-- A withdrawn duplicate (non-primary source). -/
def withdrawnApp : Application :=
  { baseApp with id := "app-3", status := "withdrawn",
                 status_history := [⟨"withdrawn", 0, ""⟩] }

/-- A primary-source (company_site) record still in `applied`. -/
def appliedMainApp : Application :=
  { baseApp with id := "app-4", source := "company_site" }

/-- A rejected record (non-primary source). -/
def rejectedApp : Application :=
  { baseApp with id := "app-5", status := "rejected",
                 status_history := [⟨"rejected", 0, ""⟩] }

/-- An offer-stage record from the primary source. -/
def offerMainApp : Application :=
  { baseApp with id := "app-6", source := "company_site", status := "offer",
                 status_history := [⟨"offer", 0, ""⟩] }

/-- A responded-stage record. -/
def respondedApp : Application :=
  { baseApp with id := "app-7", status := "responded",
                 status_history := [⟨"responded", msPerDay, ""⟩] }

/-- An interview-stage record with a different id and date. -/
def interviewApp : Application :=
  { baseApp with id := "app-8", date_applied := 2 * msPerDay, status := "interview",
                 status_history := [⟨"interview", 3 * msPerDay, ""⟩] }

/-- Enrichment collaborator that classifies every page as closed. -/
def enrichAllClosed : String → EnrichOutcome := fun _ => EnrichOutcome.closed

/-- Enrichment collaborator whose session fails on job `1` only. -/
def enrichFirstUnavailable : String → EnrichOutcome :=
  fun id => if id == "1" then EnrichOutcome.unavailable else EnrichOutcome.closed

/-- The state `runFilter` starts from on a fresh digest: empty loaded
checkpoint slice, zero processed, no events yet. -/
def runInit : RunState := ⟨[], 0, []⟩

/-- The email-path job used to instantiate the exclusion theorem. -/
def c5EmailJob : EmailJob :=
  ⟨"https://www.linkedin.com/jobs/view/111", "Senior Product Manager", "Acme", "remote"⟩

/-! ## Helper lemmas -/

set_option maxRecDepth 4000

lemma statusOrder_le_four (s : String) (r : Nat) (h : statusOrder s = some r) : r ≤ 4 := by
  unfold statusOrder at h
  split at h <;> (try cases h) <;> simp_all

lemma statusOrder_four_rejected (s : String) (h : statusOrder s = some 4) : s = "rejected" := by
  unfold statusOrder at h
  split at h <;> simp_all

lemma mergeStatus_spec (m o : Application) :
    (mergeStatus m o).id = m.id ∧
    (mergeStatus m o).status =
      (match statusOrder o.status, statusOrder m.status with
       | some ro, some rm => if rm < ro then o.status else m.status
       | _, _ => m.status) ∧
    (mergeStatus m o).status_history =
      (match statusOrder o.status, statusOrder m.status with
       | some ro, some rm =>
         if rm < ro then m.status_history ++ o.status_history else m.status_history
       | _, _ => m.status_history) := by
  rcases ho : statusOrder o.status with _ | ro <;> rcases hm : statusOrder m.status with _ | rm <;>
    simp [mergeStatus, ho, hm]
  split_ifs <;> simp_all

lemma mergeOther_spec (m o : Application) :
    (mergeOther m o).id = m.id ∧
    (mergeOther m o).status =
      (match statusOrder o.status, statusOrder m.status with
       | some ro, some rm => if rm < ro then o.status else m.status
       | _, _ => m.status) ∧
    (mergeOther m o).status_history =
      (match statusOrder o.status, statusOrder m.status with
       | some ro, some rm =>
         if rm < ro then m.status_history ++ o.status_history else m.status_history
       | _, _ => m.status_history) := by
  have h1 : (mergeJobId m o).id = m.id ∧ (mergeJobId m o).status = m.status ∧
      (mergeJobId m o).status_history = m.status_history := by
    simp only [mergeJobId]; split_ifs <;> exact ⟨rfl, rfl, rfl⟩
  have h2 : ∀ x : Application, (mergeUrl x o).id = x.id ∧ (mergeUrl x o).status = x.status ∧
      (mergeUrl x o).status_history = x.status_history := by
    intro x; simp only [mergeUrl]; split_ifs <;> exact ⟨rfl, rfl, rfl⟩
  have h3 : ∀ x : Application, (mergeRole x o).id = x.id ∧ (mergeRole x o).status = x.status ∧
      (mergeRole x o).status_history = x.status_history := by
    intro x; simp only [mergeRole]; split_ifs <;> exact ⟨rfl, rfl, rfl⟩
  have h4 : ∀ x : Application, (mergeLocation x o).id = x.id ∧ (mergeLocation x o).status = x.status ∧
      (mergeLocation x o).status_history = x.status_history := by
    intro x; simp only [mergeLocation]; split_ifs <;> exact ⟨rfl, rfl, rfl⟩
  have h6 : ∀ x : Application, (mergeNotes x o).id = x.id ∧ (mergeNotes x o).status = x.status ∧
      (mergeNotes x o).status_history = x.status_history := by
    intro x; simp only [mergeNotes]; split_ifs <;> exact ⟨rfl, rfl, rfl⟩
  have h5 := mergeStatus_spec (mergeLocation (mergeRole (mergeUrl (mergeJobId m o) o) o) o) o
  simp only [mergeOther]
  rw [(h6 _).1, (h6 _).2.1, (h6 _).2.2, h5.1, h5.2.1, h5.2.2]
  rw [(h4 _).1, (h4 _).2.1, (h4 _).2.2, (h3 _).1, (h3 _).2.1, (h3 _).2.2,
      (h2 _).1, (h2 _).2.1, (h2 _).2.2, h1.1, h1.2.1, h1.2.2]
  exact ⟨rfl, rfl, rfl⟩

lemma groupByCompany_pair (a b : Application) (hkey : companyKey a = companyKey b) :
    groupByCompany [a, b] = [(companyKey a, [a, b])] := by
  simp [groupByCompany, hkey]

lemma dedup_pair (a b : Application) (hkey : companyKey a = companyKey b)
    (hid : a.id ≠ b.id) :
    deduplicateApplications [a, b] =
      if b.source == "company_site" && !(a.source == "company_site")
      then [mergeOther b a] else [mergeOther a b] := by
  have hab : (a.id == b.id) = false := by simp [hid]
  have hba : (b.id == a.id) = false := by simp [Ne.symm hid]
  have hgroup := groupByCompany_pair a b hkey
  have hida := (mergeOther_spec a b).1
  have hidb := (mergeOther_spec b a).1
  cases hsa : (a.source == "company_site") <;> cases hsb : (b.source == "company_site") <;>
    simp [deduplicateApplications, hgroup, dedupGroup, sortCompanySiteFirst, hsa, hsb,
          replaceFirstApp, hab, hba, hida, hidb, hid, Ne.symm hid]

lemma merge_status_rejected (m o : Application) (rm ro : Nat)
    (hm : statusOrder m.status = some rm) (ho : statusOrder o.status = some ro)
    (hrej : m.status = "rejected" ∨ o.status = "rejected") :
    (mergeOther m o).status = "rejected" := by
  have hs := (mergeOther_spec m o).2.1
  rw [hm, ho] at hs
  dsimp only at hs
  rcases hrej with hr | hr
  · have h4 : rm = 4 := by rw [hr] at hm; injection hm with h2; omega
    subst h4
    have hle := statusOrder_le_four o.status ro ho
    rw [hs, if_neg (by omega)]
    exact hr
  · have h4 : ro = 4 := by rw [hr] at ho; injection ho with h2; omega
    subst h4
    rw [hs]
    by_cases hlt : rm < 4
    · rw [if_pos hlt]
      exact hr
    · have h4m : rm = 4 := by have := statusOrder_le_four m.status rm hm; omega
      subst h4m
      rw [if_neg hlt]
      exact statusOrder_four_rejected m.status hm

lemma merge_status_withdrawn (m o : Application)
    (hw : m.status = "withdrawn" ∨ o.status = "withdrawn") :
    (mergeOther m o).status = m.status := by
  have hs := (mergeOther_spec m o).2.1
  rcases hw with hr | hr
  · have hm : statusOrder m.status = none := by rw [hr]; rfl
    rw [hm] at hs
    rcases ho : statusOrder o.status with _ | ro <;> rw [ho] at hs <;> exact hs
  · have ho : statusOrder o.status = none := by rw [hr]; rfl
    rw [ho] at hs
    exact hs

lemma applyStatusUpdate_first_responded (app : Application) (d : Int) (n : String)
    (h : app.response_date = none) :
    (applyStatusUpdate app "responded" d n).response_date = some d ∧
    (applyStatusUpdate app "responded" d n).response_days =
      some (Int.fdiv (d - app.date_applied) msPerDay) := by
  simp [applyStatusUpdate, h]
  split_ifs <;> exact ⟨rfl, rfl⟩

lemma applyStatusUpdate_keeps_response (app : Application) (s : String) (d : Int)
    (n : String) (r : Int) (h : app.response_date = some r) :
    (applyStatusUpdate app s d n).response_date = some r ∧
    (applyStatusUpdate app s d n).response_days = app.response_days := by
  by_cases h1 : s = "responded"
  · subst h1; simp [applyStatusUpdate, h]; split_ifs <;> exact ⟨rfl, rfl⟩
  by_cases h2 : s = "interview"
  · subst h2; simp [applyStatusUpdate, h]; split_ifs <;> exact ⟨rfl, rfl⟩
  by_cases h3 : s = "offer"
  · subst h3; simp [applyStatusUpdate, h]; split_ifs <;> exact ⟨rfl, rfl⟩
  by_cases h4 : s = "rejected"
  · subst h4; simp [applyStatusUpdate, h]; split_ifs <;> exact ⟨rfl, rfl⟩
  simp [applyStatusUpdate, h, h1, h2, h3, h4]
  split_ifs <;> exact ⟨rfl, rfl⟩

lemma foldl_keeps_response (steps : List (String × Int × String)) :
    ∀ (app : Application) (r : Int), app.response_date = some r →
      (steps.foldl (fun a p => applyStatusUpdate a p.1 p.2.1 p.2.2) app).response_date = some r ∧
      (steps.foldl (fun a p => applyStatusUpdate a p.1 p.2.1 p.2.2) app).response_days =
        app.response_days := by
  induction steps with
  | nil => exact fun app r h => ⟨h, rfl⟩
  | cons p ps ih =>
    intro app r h
    have hk := applyStatusUpdate_keeps_response app p.1 p.2.1 p.2.2 r h
    have hrest := ih (applyStatusUpdate app p.1 p.2.1 p.2.2) r hk.1
    rw [List.foldl_cons]
    exact ⟨hrest.1, by rw [hrest.2, hk.2]⟩

lemma countPersists_append (l1 l2 : List RunEvent) :
    countPersists (l1 ++ l2) = countPersists l1 + countPersists l2 := by
  induction l1 with
  | nil => simp [countPersists]
  | cons e rest ih =>
    cases e <;> simp [countPersists, ih]
    omega

lemma runFilterLoop_last_persist (enrich : String → EnrichOutcome) (bs : Option Nat) :
    ∀ (items : List String) (st : RunState),
      (runFilterLoop enrich bs items st).events.getLast? =
        some (RunEvent.persisted (runFilterLoop enrich bs items st).stateResults) := by
  intro items
  induction items with
  | nil =>
    intro st
    simp [runFilterLoop, List.getLast?_concat]
  | cons id rest ih =>
    intro st
    simp only [runFilterLoop]
    rcases hl : lookupRec id st.stateResults with _ | v
    · simp only [hl, Option.isSome_none, Bool.false_eq_true, if_false]
      rcases hr : recordFor (enrich id) with _ | r
      · dsimp only
        exact ih st
      · dsimp only
        split_ifs with h1 h2
        · simp [List.getLast?_concat]
        · exact ih _
        · exact ih _
    · simp only [hl, Option.isSome_some, if_true]
      exact ih st

lemma runFilterLoop_mono (enrich : String → EnrichOutcome) (bs : Option Nat) :
    ∀ (items : List String) (st : RunState),
      st.processedThisRun ≤ (runFilterLoop enrich bs items st).processedThisRun := by
  intro items
  induction items with
  | nil => intro st; exact Nat.le_refl _
  | cons id rest ih =>
    intro st
    simp only [runFilterLoop]
    rcases hl : lookupRec id st.stateResults with _ | v
    · simp only [hl, Option.isSome_none, Bool.false_eq_true, if_false]
      rcases hr : recordFor (enrich id) with _ | r
      · exact ih st
      · dsimp only
        split_ifs with h1 h2
        · dsimp only
          omega
        · refine Nat.le_trans (Nat.le_succ st.processedThisRun) ?_
          exact ih { stateResults := st.stateResults ++ [(id, r)],
                     processedThisRun := st.processedThisRun + 1,
                     events := st.events ++ [RunEvent.processed id] ++
                       [RunEvent.persisted (st.stateResults ++ [(id, r)])] }
        · refine Nat.le_trans (Nat.le_succ st.processedThisRun) ?_
          exact ih { stateResults := st.stateResults ++ [(id, r)],
                     processedThisRun := st.processedThisRun + 1,
                     events := st.events ++ [RunEvent.processed id] }
    · simp only [hl, Option.isSome_some, if_true]
      exact ih st

lemma runFilterLoop_single_persist (enrich : String → EnrichOutcome) :
    ∀ (items : List String) (st : RunState),
      (runFilterLoop enrich none items st).processedThisRun < defaultBatchSize →
      countPersists (runFilterLoop enrich none items st).events =
        countPersists st.events + 1 := by
  intro items
  induction items with
  | nil =>
    intro st _
    simp [runFilterLoop, countPersists_append, countPersists]
  | cons id rest ih =>
    intro st hlt
    simp only [runFilterLoop] at hlt ⊢
    rcases hl : lookupRec id st.stateResults with _ | v
    · simp only [hl, Option.isSome_none, Bool.false_eq_true, if_false] at hlt ⊢
      rcases hr : recordFor (enrich id) with _ | r
      · simp only [hr] at hlt ⊢
        exact ih st hlt
      · simp only [hr] at hlt ⊢
        rw [show batchHit none (st.processedThisRun + 1) = false from rfl] at hlt ⊢
        simp only [Bool.false_eq_true, if_false] at hlt ⊢
        by_cases hp : periodicSave none (st.processedThisRun + 1) = true
        · exfalso
          rw [if_pos hp] at hlt
          have hmono := runFilterLoop_mono enrich none rest
            { stateResults := st.stateResults ++ [(id, r)],
              processedThisRun := st.processedThisRun + 1,
              events := st.events ++ [RunEvent.processed id] ++
                [RunEvent.persisted (st.stateResults ++ [(id, r)])] }
          dsimp only at hmono
          have hfin : st.processedThisRun + 1 < defaultBatchSize :=
            Nat.lt_of_le_of_lt hmono hlt
          have h15 : (st.processedThisRun + 1) % defaultBatchSize = 0 := by
            simpa [periodicSave] using hp
          rw [Nat.mod_eq_of_lt hfin] at h15
          omega
        · rw [if_neg hp] at hlt ⊢
          have hstep := ih { stateResults := st.stateResults ++ [(id, r)],
                             processedThisRun := st.processedThisRun + 1,
                             events := st.events ++ [RunEvent.processed id] } hlt
          rw [hstep]
          simp [countPersists_append, countPersists]
    · simp only [hl] at hlt ⊢
      exact ih st hlt

lemma lookupRec_append_ne (i k : String) (r : FilterRec) (h : (k == i) = false) :
    ∀ l : List (String × FilterRec), lookupRec i (l ++ [(k, r)]) = lookupRec i l := by
  intro l
  induction l with
  | nil => simp [lookupRec, h]
  | cons p rest ih =>
    simp only [List.cons_append, lookupRec, List.append_eq]
    rw [ih]

lemma runFilterLoop_skip_unavailable (enrich : String → EnrichOutcome) (bs : Option Nat)
    (badId : String) (items : List String) (st : RunState)
    (h : enrich badId = EnrichOutcome.unavailable) :
    runFilterLoop enrich bs (badId :: items) st = runFilterLoop enrich bs items st := by
  simp only [runFilterLoop, h, recordFor]
  split <;> rfl

lemma runFilterLoop_untouched (enrich : String → EnrichOutcome) (bs : Option Nat)
    (i : String) (h : enrich i = EnrichOutcome.unavailable) :
    ∀ (items : List String) (st : RunState),
      lookupRec i (runFilterLoop enrich bs items st).stateResults =
        lookupRec i st.stateResults := by
  intro items
  induction items with
  | nil => intro st; rfl
  | cons id rest ih =>
    intro st
    simp only [runFilterLoop]
    rcases hl : lookupRec id st.stateResults with _ | v
    · simp only [hl, Option.isSome_none, Bool.false_eq_true, if_false]
      rcases hr : recordFor (enrich id) with _ | r
      · exact ih st
      · have hne : (id == i) = false := by
          rcases eq_or_ne id i with heq | hne
          · subst heq
            rw [h] at hr
            cases hr
          · simpa using hne
        dsimp only
        split_ifs with h1 h2
        · dsimp only
          exact lookupRec_append_ne i id r hne st.stateResults
        · rw [ih { stateResults := st.stateResults ++ [(id, r)],
                   processedThisRun := st.processedThisRun + 1,
                   events := st.events ++ [RunEvent.processed id] ++
                     [RunEvent.persisted (st.stateResults ++ [(id, r)])] }]
          exact lookupRec_append_ne i id r hne st.stateResults
        · rw [ih { stateResults := st.stateResults ++ [(id, r)],
                   processedThisRun := st.processedThisRun + 1,
                   events := st.events ++ [RunEvent.processed id] }]
          exact lookupRec_append_ne i id r hne st.stateResults
    · simp only [hl, Option.isSome_some, if_true]
      exact ih st

lemma getJobIdAux_digits : ∀ (cs : List Char) (s : String), getJobIdAux cs = some s →
    s.data ≠ [] ∧ ∀ c ∈ s.data, c.isDigit := by
  intro cs
  induction cs with
  | nil => intro s h; cases h
  | cons c rest ih =>
    intro s h
    simp only [getJobIdAux] at h
    split_ifs at h with hstart hempty
    · exact ih s h
    · injection h with h3
      subst h3
      constructor
      · simpa [List.isEmpty_iff] using hempty
      · intro x hx
        exact List.mem_takeWhile_imp hx
    · exact ih s h

lemma getJobId_commUrl (id : String) (h1 : id.data ≠ []) (h2 : ∀ c ∈ id.data, c.isDigit) :
    getJobId ("https://www.linkedin.com/comm/jobs/view/" ++ id) = some id := by
  rw [getJobId, String.data_append]
  have hred : getJobIdAux ("https://www.linkedin.com/comm/jobs/view/".data ++ id.data) =
      (if (id.data.takeWhile Char.isDigit).isEmpty then
        getJobIdAux ("jobs/view/".data ++ id.data)
       else some (String.mk (id.data.takeWhile Char.isDigit))) := rfl
  rw [hred, List.takeWhile_eq_self_iff.mpr h2,
      if_neg (by simpa [List.isEmpty_iff] using h1)]

lemma lookupEntry_append_some (i : String) (e : JobEntry) :
    ∀ (l l2 : List (String × JobEntry)),
      lookupEntry i l = some e → lookupEntry i (l ++ l2) = some e := by
  intro l l2
  induction l with
  | nil => intro h; cases h
  | cons p rest ih =>
    intro h
    rw [List.cons_append, lookupEntry]
    rw [lookupEntry] at h
    split_ifs at h ⊢ with hk
    · exact h
    · exact ih h

lemma lookupEntry_set_self (i : String) (e : JobEntry) :
    ∀ l : List (String × JobEntry),
      (lookupEntry i l).isSome → lookupEntry i (setEntry i e l) = some e := by
  intro l
  induction l with
  | nil => intro h; cases h
  | cons p rest ih =>
    intro h
    rw [lookupEntry] at h
    rw [setEntry]
    split_ifs at h ⊢ with hk
    · rw [lookupEntry, if_pos hk]
    · rw [lookupEntry, if_neg hk]
      exact ih h

lemma lookupEntry_set_other (i i2 : String) (e : JobEntry) (hne : i2 ≠ i) :
    ∀ l : List (String × JobEntry),
      lookupEntry i (setEntry i2 e l) = lookupEntry i l := by
  intro l
  induction l with
  | nil => rfl
  | cons p rest ih =>
    rw [setEntry]
    split_ifs with hk
    · have hpi : (p.1 == i) = false := by
        have : p.1 = i2 := by simpa using hk
        simp [this, hne]
      rw [lookupEntry, lookupEntry, if_neg (by simp [hpi]), if_neg (by simp [hpi])]
    · rw [lookupEntry, lookupEntry]
      split_ifs with hk2
      · rfl
      · exact ih

lemma processItem_eval (existingIds : List String) (jobById : List (String × JobEntry))
    (item : RawItem) (id : String)
    (hid : getJobId item.href = some id)
    (hcontains : existingIds.contains id = false)
    (hsim : isJobsSimilarLink item.title = false)
    (hnpm : isNonPmRole (normalizeTitle item.title) = false) :
    processItem existingIds jobById item =
      (match lookupEntry id jobById with
       | none => jobById ++
           [(id, ⟨"https://www.linkedin.com/comm/jobs/view/" ++ id, normalizeTitle item.title⟩)]
       | some existing =>
         if normalizeTitle item.title != "View job" &&
            (existing.title == "View job" ||
             jsLen (normalizeTitle item.title) > jsLen existing.title)
         then setEntry id ⟨existing.viewUrl, normalizeTitle item.title⟩ jobById
         else jobById) := by
  have hdig := getJobIdAux_digits item.href.data id hid
  have hcomm := getJobId_commUrl id hdig.1 hdig.2
  simp only [processItem, getJobViewUrl, hid, hcomm, hcontains, hsim, hnpm,
             Bool.false_eq_true, if_false]

/-! ## Claims -/

/-- C1 (amended). Resolving a placeholder-titled record A and a real-titled
record B for the same identity in either order leaves the stored title at
the real title, and applying B then A never reverts to the placeholder.
The last conjunct of the claim is amended: a stored non-placeholder title
is only ever replaced by a non-placeholder, strictly longer value, while
a stored placeholder (`View job`) title is replaced by any non-placeholder
value, even a strictly shorter one. -/
theorem c1_upgrade_only :
    (∀ (id tA tB hrefA hrefB : String),
       getJobId hrefA = some id → getJobId hrefB = some id →
       normalizeTitle tA = "View job" → normalizeTitle tB ≠ "View job" →
       isJobsSimilarLink tA = false → isJobsSimilarLink tB = false →
       isNonPmRole (normalizeTitle tB) = false →
       ((lookupEntry id (processItem [] (processItem [] [] ⟨hrefA, tA⟩) ⟨hrefB, tB⟩)).map
          JobEntry.title = some (normalizeTitle tB) ∧
        (lookupEntry id (processItem [] (processItem [] [] ⟨hrefB, tB⟩) ⟨hrefA, tA⟩)).map
          JobEntry.title = some (normalizeTitle tB))) ∧
    (∀ (existingIds : List String) (jobById : List (String × JobEntry)) (item : RawItem)
       (id : String) (entry entry2 : JobEntry),
       lookupEntry id jobById = some entry →
       lookupEntry id (processItem existingIds jobById item) = some entry2 →
       entry2 = entry ∨
         (entry2.viewUrl = entry.viewUrl ∧ entry2.title ≠ "View job" ∧
          (entry.title = "View job" ∨ jsLen entry.title < jsLen entry2.title))) := by
  constructor
  · intro id tA tB hrefA hrefB hidA hidB hA hB hsimA hsimB hnpmB
    have hnpmA : isNonPmRole (normalizeTitle tA) = false := by
      rw [hA]; decide
    have hBne : (normalizeTitle tB != "View job") = true := by simp [hB]
    constructor
    · rw [processItem_eval [] [] ⟨hrefA, tA⟩ id hidA rfl hsimA hnpmA]
      simp only [lookupEntry, List.nil_append]
      rw [processItem_eval [] _ ⟨hrefB, tB⟩ id hidB rfl hsimB hnpmB]
      simp [lookupEntry, setEntry, hA, hBne]
    · rw [processItem_eval [] [] ⟨hrefB, tB⟩ id hidB rfl hsimB hnpmB]
      simp only [lookupEntry, List.nil_append]
      rw [processItem_eval [] _ ⟨hrefA, tA⟩ id hidA rfl hsimA hnpmA]
      simp [lookupEntry, hA]
  · intro existingIds jobById item id entry entry2 h1 h2
    rw [processItem] at h2
    rcases hv : getJobViewUrl item.href with _ | viewUrl
    · rw [hv] at h2
      dsimp only at h2
      rw [h1] at h2
      injection h2 with h3
      exact Or.inl h3.symm
    · rw [hv] at h2
      dsimp only at h2
      rcases hi2 : getJobId viewUrl with _ | id2
      · rw [hi2] at h2
        dsimp only at h2
        rw [h1] at h2
        injection h2 with h3
        exact Or.inl h3.symm
      · rw [hi2] at h2
        dsimp only at h2
        split_ifs at h2 with hc1 hc2 hc3
        · rw [h1] at h2; injection h2 with h3; exact Or.inl h3.symm
        · rw [h1] at h2; injection h2 with h3; exact Or.inl h3.symm
        · rw [h1] at h2; injection h2 with h3; exact Or.inl h3.symm
        · rcases hl2 : lookupEntry id2 jobById with _ | existing
          · rw [hl2] at h2
            dsimp only at h2
            rw [lookupEntry_append_some id entry jobById _ h1] at h2
            injection h2 with h3
            exact Or.inl h3.symm
          · rw [hl2] at h2
            dsimp only at h2
            split_ifs at h2 with hcond
            · by_cases hii : id2 = id
              · subst hii
                rw [h1] at hl2
                injection hl2 with h4
                subst h4
                rw [lookupEntry_set_self id2 _ jobById (by rw [h1]; rfl)] at h2
                injection h2 with h3
                subst h3
                right
                simp only [Bool.and_eq_true, Bool.or_eq_true] at hcond
                refine ⟨rfl, ?_, ?_⟩
                · simpa using hcond.1
                · rcases hcond.2 with hx | hx
                  · exact Or.inl (by simpa using hx)
                  · exact Or.inr (by simpa [jsLen] using hx)
              · rw [lookupEntry_set_other id id2 _ hii jobById, h1] at h2
                injection h2 with h3
                exact Or.inl h3.symm
            · rw [h1] at h2
              injection h2 with h3
              exact Or.inl h3.symm

/-- C1 counterexample. The claim as stated also asserts that a title is
only ever replaced by a strictly longer value; here the stored placeholder
`View job` (8 chars) is replaced by the real title `PM` (2 chars), which
is strictly shorter. -/
theorem c1_counterexample :
    (lookupEntry "123"
      (processItem []
        (processItem [] [] ⟨"https://www.linkedin.com/jobs/view/123?x=1", ""⟩)
        ⟨"https://www.linkedin.com/jobs/view/123", "PM"⟩)).map JobEntry.title =
      some "PM" ∧
    jsLen "PM" < jsLen "View job" := by
  decide

/-- C1 witness: the amended theorem instantiated at the concrete pair
(empty title vs `Senior Product Manager`) and at a concrete replacement
step. -/
theorem c1_witness :
    ((lookupEntry "123"
       (processItem []
         (processItem [] [] ⟨"https://www.linkedin.com/jobs/view/123?x=1", ""⟩)
         ⟨"https://www.linkedin.com/jobs/view/123", "Senior Product Manager"⟩)).map
       JobEntry.title = some (normalizeTitle "Senior Product Manager") ∧
     (lookupEntry "123"
       (processItem []
         (processItem [] [] ⟨"https://www.linkedin.com/jobs/view/123", "Senior Product Manager"⟩)
         ⟨"https://www.linkedin.com/jobs/view/123?x=1", ""⟩)).map
       JobEntry.title = some (normalizeTitle "Senior Product Manager")) ∧
    ((⟨"https://www.linkedin.com/comm/jobs/view/123", "Senior Product Manager"⟩ : JobEntry) =
       ⟨"https://www.linkedin.com/comm/jobs/view/123", "View job"⟩ ∨
     (JobEntry.viewUrl ⟨"https://www.linkedin.com/comm/jobs/view/123", "Senior Product Manager"⟩ =
        JobEntry.viewUrl ⟨"https://www.linkedin.com/comm/jobs/view/123", "View job"⟩ ∧
      JobEntry.title ⟨"https://www.linkedin.com/comm/jobs/view/123", "Senior Product Manager"⟩ ≠
        "View job" ∧
      (JobEntry.title ⟨"https://www.linkedin.com/comm/jobs/view/123", "View job"⟩ = "View job" ∨
       jsLen (JobEntry.title ⟨"https://www.linkedin.com/comm/jobs/view/123", "View job"⟩) <
         jsLen (JobEntry.title ⟨"https://www.linkedin.com/comm/jobs/view/123",
           "Senior Product Manager"⟩)))) :=
  ⟨c1_upgrade_only.1 "123" "" "Senior Product Manager"
     "https://www.linkedin.com/jobs/view/123?x=1" "https://www.linkedin.com/jobs/view/123"
     (by decide) (by decide) (by decide) (by decide) (by decide) (by decide) (by decide),
   c1_upgrade_only.2 []
     [("123", ⟨"https://www.linkedin.com/comm/jobs/view/123", "View job"⟩)]
     ⟨"https://www.linkedin.com/jobs/view/123", "Senior Product Manager"⟩ "123"
     ⟨"https://www.linkedin.com/comm/jobs/view/123", "View job"⟩
     ⟨"https://www.linkedin.com/comm/jobs/view/123", "Senior Product Manager"⟩
     (by decide) (by decide)⟩

/-- C2 (confirmed). `response_days` is computed exactly once, at the first
transition into `responded` (when `response_date` is still unset), as the
floor day difference between `date_applied` and the response date; any
later transition, and any sequence of later transitions, leaves
`response_date` and `response_days` unchanged. -/
theorem c2_response_days_once :
    (∀ (app : Application) (d : Int) (n : String), app.response_date = none →
       (applyStatusUpdate app "responded" d n).response_date = some d ∧
       (applyStatusUpdate app "responded" d n).response_days =
         some (Int.fdiv (d - app.date_applied) msPerDay)) ∧
    (∀ (app : Application) (s : String) (d : Int) (n : String) (r : Int),
       app.response_date = some r →
       (applyStatusUpdate app s d n).response_date = some r ∧
       (applyStatusUpdate app s d n).response_days = app.response_days) ∧
    (∀ (steps : List (String × Int × String)) (app : Application) (r : Int),
       app.response_date = some r →
       (steps.foldl (fun a p => applyStatusUpdate a p.1 p.2.1 p.2.2) app).response_days =
         app.response_days) :=
  ⟨applyStatusUpdate_first_responded, applyStatusUpdate_keeps_response,
   fun steps app r h => (foldl_keeps_response steps app r h).2⟩

/-- C2 witness: the spec scenario — responded on day 5, then interview on
day 7 and responded again on day 9 — keeps `response_days = 5`
throughout. -/
theorem c2_witness :
    ((applyStatusUpdate baseApp "responded" (5 * msPerDay) "").response_days = some 5) ∧
    (([("interview", 7 * msPerDay, ""), ("responded", 9 * msPerDay, "")].foldl
       (fun a p => applyStatusUpdate a p.1 p.2.1 p.2.2)
       (applyStatusUpdate baseApp "responded" (5 * msPerDay) "")).response_days = some 5) := by
  have h1 := c2_response_days_once.1 baseApp (5 * msPerDay) "" (by decide)
  have hdays : (applyStatusUpdate baseApp "responded" (5 * msPerDay) "").response_days = some 5 := by
    rw [h1.2]; decide
  have h2 := c2_response_days_once.2.2 [("interview", 7 * msPerDay, ""), ("responded", 9 * msPerDay, "")]
    (applyStatusUpdate baseApp "responded" (5 * msPerDay) "") (5 * msPerDay) h1.1
  exact ⟨hdays, by rw [h2, hdays]⟩

/-- C3 (amended). Every run of the enrichment batch loop ends with a
durable write (digest plus checkpoint store together) containing the full
in-memory store, and in unlimited-batch mode a run that processes fewer
than `DEFAULT_BATCH_SIZE` (15) items performs exactly one durable write —
the final one — rather than one per processed item. -/
theorem c3_persistence (enrich : String → EnrichOutcome) (bs : Option Nat)
    (items : List String) (st : RunState) :
    ((runFilterLoop enrich bs items st).events.getLast? =
      some (RunEvent.persisted (runFilterLoop enrich bs items st).stateResults)) ∧
    (bs = none →
      (runFilterLoop enrich bs items st).processedThisRun < defaultBatchSize →
      countPersists (runFilterLoop enrich bs items st).events =
        countPersists st.events + 1) := by
  refine ⟨runFilterLoop_last_persist enrich bs items st, ?_⟩
  intro hbs hlt
  subst hbs
  exact runFilterLoop_single_persist enrich items st hlt

/-- C3 counterexample. With the default unlimited batch size, processing
two items produces no durable write between them (the only persist event
is the final one), so the store is not persisted immediately after each
processed item and an interruption after the first item loses its result,
contradicting the claim that at most the in-flight item is lost. -/
theorem c3_counterexample :
    immediatelyPersisted (runFilterLoop enrichAllClosed none ["1", "2"] runInit).events = false ∧
    countPersists (runFilterLoop enrichAllClosed none ["1", "2"] runInit).events = 1 ∧
    (runFilterLoop enrichAllClosed none ["1", "2"] runInit).stateResults.length = 2 := by
  decide

/-- C3 witness: the amended theorem instantiated at a concrete two-item
unlimited-batch run. -/
theorem c3_witness :
    ((runFilterLoop enrichAllClosed none ["1", "2"] runInit).events.getLast? =
      some (RunEvent.persisted (runFilterLoop enrichAllClosed none ["1", "2"] runInit).stateResults)) ∧
    countPersists (runFilterLoop enrichAllClosed none ["1", "2"] runInit).events =
      countPersists runInit.events + 1 :=
  ⟨(c3_persistence enrichAllClosed none ["1", "2"] runInit).1,
   (c3_persistence enrichAllClosed none ["1", "2"] runInit).2 rfl (by decide)⟩

/-- C4 (amended). When the enrichment collaborator is unreachable for an
identity (login/authwall), no checkpoint record is written for it — the
run on the remaining items is identical to a run without that item, and
the store entry for that identity is untouched, so the next run retries
it. Amended: the run does not abort the batch loop; it skips the item and
continues with the remaining ones. -/
theorem c4_retry_no_abort (enrich : String → EnrichOutcome) (bs : Option Nat)
    (badId : String) (items : List String) (st : RunState)
    (h : enrich badId = EnrichOutcome.unavailable) :
    runFilterLoop enrich bs (badId :: items) st = runFilterLoop enrich bs items st ∧
    lookupRec badId (runFilterLoop enrich bs (badId :: items) st).stateResults =
      lookupRec badId st.stateResults := by
  refine ⟨runFilterLoop_skip_unavailable enrich bs badId items st h, ?_⟩
  rw [runFilterLoop_skip_unavailable enrich bs badId items st h]
  exact runFilterLoop_untouched enrich bs badId h items st

/-- C4 counterexample. With the collaborator unreachable for job `1` and
reachable for job `2`, the run leaves no record for `1` but continues and
marks `2` as done — it does not abort the batch loop as claimed. -/
theorem c4_counterexample :
    lookupRec "1" (runFilterLoop enrichFirstUnavailable none ["1", "2"] runInit).stateResults =
      none ∧
    lookupRec "2" (runFilterLoop enrichFirstUnavailable none ["1", "2"] runInit).stateResults =
      some ⟨true, none⟩ ∧
    (runFilterLoop enrichFirstUnavailable none ["1", "2"] runInit).processedThisRun = 1 := by
  decide

/-- C4 witness: the amended theorem instantiated at the concrete
authwall-on-first-item run. -/
theorem c4_witness :
    runFilterLoop enrichFirstUnavailable none ["1", "2"] runInit =
      runFilterLoop enrichFirstUnavailable none ["2"] runInit ∧
    lookupRec "1" (runFilterLoop enrichFirstUnavailable none ["1", "2"] runInit).stateResults =
      lookupRec "1" runInit.stateResults :=
  c4_retry_no_abort enrichFirstUnavailable none "1" ["2"] runInit (by decide)

/-- C5 (amended, email path). Every job emitted into either section of the
email-parser digest has an identity outside the exclusion set collected
from applied/rejected lines of previous digests. (The RSS merge path
performs no such exclusion; see the counterexample.) -/
theorem c5_exclusion_email_only (score : EmailJob → Int) (results : List EmailJob)
    (excludedIds : List String) (j : EmailJob)
    (hj : j ∈ (emailDigestJobs score results excludedIds).1 ∨
          j ∈ (emailDigestJobs score results excludedIds).2) :
    ∀ i : String, getJobId j.url = some i → excludedIds.contains i = false := by
  intro i hi
  have hkept : ∃ p : EmailJob × Int, p.1 = j ∧ (!inExcluded excludedIds p.1.url) = true := by
    rcases hj with hj | hj <;>
      simp only [emailDigestJobs, List.mem_map, List.mem_filter] at hj <;>
      obtain ⟨p, ⟨⟨hp0, hpex⟩, hps⟩, hp2⟩ := hj <;>
      exact ⟨p, hp2, hpex⟩
  obtain ⟨p, hpj, hex⟩ := hkept
  rw [hpj] at hex
  simp only [Bool.not_eq_eq_eq_not, Bool.not_true] at hex
  rw [inExcluded, hi] at hex
  simpa using hex

/-- C5 counterexample. An identity marked applied (`[x]`) in an earlier
digest is collected into the exclusion set, yet the RSS/feed merge path —
which never consults that set — inserts a job line with the same identity
into a later digest, so the no-resurrection invariant does not hold on
every ingestion path. -/
theorem c5_counterexample :
    "999" ∈ excludedIdsFrom [["- [x] [Old Job · X · Remote](https://www.linkedin.com/jobs/view/999)"]] ∧
    (mergeRssIntoDigest ["# Job digest"]
      (rssBlockLines "RemoteOK"
        (rssKept [⟨"Senior Product Manager", "https://www.linkedin.com/jobs/view/999"⟩]))).any
      (fun l => ((jobLineUrl l).bind getJobId) == some "999") = true := by
  decide

/-- C5 witness: the email-path theorem instantiated at a concrete result
list and exclusion set. -/
theorem c5_witness :
    (emailDigestJobs (fun _ => 7) [c5EmailJob] ["999"]).1 = [c5EmailJob] ∧
    List.contains ["999"] "111" = false :=
  ⟨by decide,
   c5_exclusion_email_only (fun _ => 7) [c5EmailJob] ["999"] c5EmailJob
     (Or.inl (by decide)) "111" (by decide)⟩

/-- C6 (amended). Merging two applications for the same organization
(keys equal, ids distinct, dates two days apart, no shared job identity)
yields exactly one Application whose status is the more advanced of the
two under the ordering `applied < responded < interview < offer <
rejected`; the merged history is the concatenation of both histories only
when the absorbed record's status is strictly more advanced than the
primary record's, and otherwise is the primary record's history alone. -/
theorem c6_dedup_merge (a b : Application) (ra rb : Nat)
    (hkey : companyKey a = companyKey b) (hid : a.id ≠ b.id)
    (hra : statusOrder a.status = some ra) (hrb : statusOrder b.status = some rb)
    (_hdate : b.date_applied = a.date_applied + 2 * msPerDay ∨
              a.date_applied = b.date_applied + 2 * msPerDay)
    (_hjob : ∀ j : String, ¬(a.jobId = some j ∧ b.jobId = some j)) :
    ∃ m, deduplicateApplications [a, b] = [m] ∧
      statusOrder m.status = some (max ra rb) ∧
      m.status_history =
        (if b.source == "company_site" && !(a.source == "company_site")
         then (if rb < ra then b.status_history ++ a.status_history else b.status_history)
         else (if ra < rb then a.status_history ++ b.status_history else a.status_history)) := by
  rw [dedup_pair a b hkey hid]
  by_cases hsw : (b.source == "company_site" && !(a.source == "company_site")) = true
  · refine ⟨mergeOther b a, by rw [if_pos hsw], ?_, ?_⟩
    · have hs := (mergeOther_spec b a).2.1
      rw [hra, hrb] at hs
      dsimp only at hs
      rw [hs]
      by_cases hlt : rb < ra
      · rw [if_pos hlt, hra]
        congr 1
        omega
      · rw [if_neg hlt, hrb]
        congr 1
        omega
    · have hh := (mergeOther_spec b a).2.2
      rw [hra, hrb] at hh
      dsimp only at hh
      rw [hh, if_pos hsw]
  · have hsw2 : (b.source == "company_site" && !(a.source == "company_site")) = false := by
      simpa using hsw
    refine ⟨mergeOther a b, by rw [if_neg (by simp [hsw2])], ?_, ?_⟩
    · have hs := (mergeOther_spec a b).2.1
      rw [hra, hrb] at hs
      dsimp only at hs
      rw [hs]
      by_cases hlt : ra < rb
      · rw [if_pos hlt, hrb]
        congr 1
        omega
      · rw [if_neg hlt, hra]
        congr 1
        omega
    · have hh := (mergeOther_spec a b).2.2
      rw [hra, hrb] at hh
      dsimp only at hh
      rw [hh, hsw2]
      simp only [Bool.false_eq_true, if_false]

/-- C6 counterexample. Two independently created `applied` records for
Acme, two days apart, merge into one Application whose history contains
only the primary (company_site) record's entry — the digest-path entry is
discarded, contradicting the claim that the merged history contains both
original histories' entries. -/
theorem c6_counterexample :
    (deduplicateApplications [digestApp, folderApp]).map (fun m => m.status_history) =
      [[⟨"applied", 2 * msPerDay, "from folder scan"⟩]] ∧
    digestApp.status_history = [⟨"applied", 0, "from digest"⟩] ∧
    (((⟨"applied", 0, "from digest"⟩ : HistoryEntry) ∈
        [(⟨"applied", 2 * msPerDay, "from folder scan"⟩ : HistoryEntry)]) → False) := by
  decide

/-- C6 witness: the amended theorem instantiated at a responded record and
a strictly more advanced interview record, where both histories do
survive. -/
theorem c6_witness :
    ∃ m, deduplicateApplications [respondedApp, interviewApp] = [m] ∧
      statusOrder m.status = some (max 1 2) ∧
      m.status_history =
        [⟨"responded", msPerDay, ""⟩, ⟨"interview", 3 * msPerDay, ""⟩] := by
  obtain ⟨m, h1, h2, h3⟩ := c6_dedup_merge respondedApp interviewApp 1 2
    (by decide) (by decide) (by decide) (by decide) (Or.inl (by decide))
    (by intro j hj; simp [respondedApp, baseApp] at hj)
  refine ⟨m, h1, h2, ?_⟩
  rw [h3]
  decide

/-- C7 (amended). In a duplicate merge, a `rejected` status on either
record always survives (it is the maximum of the implemented ordering
`applied < responded < interview < offer < rejected`); `withdrawn` is
absent from the ordering, so whenever either record is `withdrawn` the
primary record's status survives unchanged — a `withdrawn` status on the
absorbed record never wins the merge. -/
theorem c7_terminal (a b : Application)
    (hkey : companyKey a = companyKey b) (hid : a.id ≠ b.id) :
    ((a.status = "rejected" ∨ b.status = "rejected") →
      ∀ ra rb, statusOrder a.status = some ra → statusOrder b.status = some rb →
      ∀ m, deduplicateApplications [a, b] = [m] → m.status = "rejected") ∧
    ((a.status = "withdrawn" ∨ b.status = "withdrawn") →
      ∀ m, deduplicateApplications [a, b] = [m] →
        m.status = (if b.source == "company_site" && !(a.source == "company_site")
                    then b.status else a.status)) := by
  constructor
  · intro hrej ra rb hra hrb m hm
    rw [dedup_pair a b hkey hid] at hm
    by_cases hsw : (b.source == "company_site" && !(a.source == "company_site")) = true
    · rw [if_pos hsw] at hm
      have hm2 : m = mergeOther b a := by injection hm.symm
      rw [hm2]
      exact merge_status_rejected b a rb ra hrb hra (Or.symm hrej)
    · rw [if_neg hsw] at hm
      have hm2 : m = mergeOther a b := by injection hm.symm
      rw [hm2]
      exact merge_status_rejected a b ra rb hra hrb hrej
  · intro hw m hm
    rw [dedup_pair a b hkey hid] at hm
    by_cases hsw : (b.source == "company_site" && !(a.source == "company_site")) = true
    · rw [if_pos hsw] at hm
      have hm2 : m = mergeOther b a := by injection hm.symm
      rw [hm2, if_pos hsw]
      exact merge_status_withdrawn b a (Or.symm hw)
    · rw [if_neg hsw] at hm
      have hm2 : m = mergeOther a b := by injection hm.symm
      rw [hm2, if_neg hsw]
      exact merge_status_withdrawn a b hw

/-- C7 counterexample. A `withdrawn` duplicate merged into an `applied`
primary record yields status `applied`: `withdrawn` is not accepted as
authoritative, contradicting the claim. -/
theorem c7_counterexample :
    (deduplicateApplications [appliedMainApp, withdrawnApp]).map (fun m => m.status) =
      ["applied"] ∧
    withdrawnApp.status = "withdrawn" := by
  decide

/-- C7 witness: the amended theorem instantiated at an offer/rejected pair
(rejected wins) and at an applied/withdrawn pair (the primary's status
survives). -/
theorem c7_witness :
    (∃ m, deduplicateApplications [offerMainApp, rejectedApp] = [m] ∧ m.status = "rejected") ∧
    (∃ m, deduplicateApplications [appliedMainApp, withdrawnApp] = [m] ∧ m.status = "applied") := by
  constructor
  · refine ⟨mergeOther offerMainApp rejectedApp, by decide, ?_⟩
    exact (c7_terminal offerMainApp rejectedApp (by decide) (by decide)).1
      (Or.inr (by decide)) 3 4 (by decide) (by decide)
      (mergeOther offerMainApp rejectedApp) (by decide)
  · refine ⟨mergeOther appliedMainApp withdrawnApp, by decide, ?_⟩
    have h := (c7_terminal appliedMainApp withdrawnApp (by decide) (by decide)).2
      (Or.inr (by decide)) (mergeOther appliedMainApp withdrawnApp) (by decide)
    rw [h]
    decide

/-- C8 (amended). A transition to `offer` or `rejected` sets the
corresponding date field on every such transition — last write wins, not
first write wins — and every transition appends its entry to the status
history. -/
theorem c8_terminal_dates (app : Application) (d : Int) (n : String) :
    (applyStatusUpdate app "offer" d n).offer_date = some d ∧
    (applyStatusUpdate app "rejected" d n).rejection_date = some d ∧
    (∀ s : String, (applyStatusUpdate app s d n).status_history =
       app.status_history ++ [⟨s, d, n⟩]) := by
  refine ⟨?_, ?_, ?_⟩
  · simp [applyStatusUpdate]
    split_ifs <;> rfl
  · simp [applyStatusUpdate]
    split_ifs <;> rfl
  · intro s
    by_cases h1 : s = "responded"
    · subst h1; simp [applyStatusUpdate]; split_ifs <;> rfl
    by_cases h2 : s = "interview"
    · subst h2; simp [applyStatusUpdate]; split_ifs <;> rfl
    by_cases h3 : s = "offer"
    · subst h3; simp [applyStatusUpdate]; split_ifs <;> rfl
    by_cases h4 : s = "rejected"
    · subst h4; simp [applyStatusUpdate]; split_ifs <;> rfl
    simp [applyStatusUpdate, h1, h2, h3, h4]
    split_ifs <;> rfl

/-- C8 counterexample. Two `offer` transitions on days 3 and 6 leave
`offer_date` at day 6: the already-set date field is overwritten by the
later same-status transition, contradicting first-write-wins. -/
theorem c8_counterexample :
    (applyStatusUpdate (applyStatusUpdate baseApp "offer" (3 * msPerDay) "") "offer"
      (6 * msPerDay) "").offer_date = some (6 * msPerDay) ∧
    ((applyStatusUpdate (applyStatusUpdate baseApp "offer" (3 * msPerDay) "") "offer"
      (6 * msPerDay) "").offer_date = some (3 * msPerDay) → False) := by
  decide

/-- C9 (amended). The two records resolve to a single entry with identity
`123`, but its title remains the space-separated duplicate
`Senior PM (verified) Senior PM (verified)`: the repeated-phrase collapse
fires only on an exact back-to-back doubling with no separator (as the
second conjunct shows), the space-separated repetition is left intact, and
the shorter real title of the second record does not upgrade the longer
stored one; the scrape-path entry carries no organization field. -/
theorem c9_resolution :
    processItem []
        (processItem [] []
          ⟨"https://www.linkedin.com/jobs/view/123?x=1",
           "Senior PM (verified) Senior PM (verified)"⟩)
        ⟨"https://www.linkedin.com/jobs/view/123", "Senior Product Manager"⟩ =
      [("123", ⟨"https://www.linkedin.com/comm/jobs/view/123",
                "Senior PM (verified) Senior PM (verified)"⟩)] ∧
    normalizeTitle "Senior Product ManagerSenior Product Manager" = "Senior Product Manager" ∧
    normalizeTitle "Senior PM (verified) Senior PM (verified)" =
      "Senior PM (verified) Senior PM (verified)" := by
  decide

/-- C9 counterexample. Resolving the two records of the claim yields the
stored title `Senior PM (verified) Senior PM (verified)`, not the claimed
`Senior Product Manager`. -/
theorem c9_counterexample :
    processItem []
        (processItem [] []
          ⟨"https://www.linkedin.com/jobs/view/123?x=1",
           "Senior PM (verified) Senior PM (verified)"⟩)
        ⟨"https://www.linkedin.com/jobs/view/123", "Senior Product Manager"⟩ =
      [("123", ⟨"https://www.linkedin.com/comm/jobs/view/123",
                "Senior PM (verified) Senior PM (verified)"⟩)] ∧
    ("Senior PM (verified) Senior PM (verified)" = "Senior Product Manager" → False) := by
  decide

/-- C10 (confirmed). `updateStatus` with an id matching no application
returns `null` and performs no write: `saveTracker` is not called, so the
tracker file, its `meta.last_updated` stamp and every application record
are unchanged and no history entry is appended. -/
theorem c10_missing_id (tracker : Tracker) (applicationId newStatus : String)
    (date : Option Int) (notes : String) (today : Int)
    (h : ∀ a ∈ tracker.applications, a.id ≠ applicationId) :
    updateStatus tracker applicationId newStatus date notes today = ⟨tracker, false, none⟩ := by
  have hf : tracker.applications.find? (fun a => a.id == applicationId) = none := by
    rw [List.find?_eq_none]
    intro a ha
    simpa using h a ha
  simp [updateStatus, hf]

/-- C10 witness: the theorem instantiated at a one-application tracker and
a missing id. -/
theorem c10_witness :
    updateStatus ⟨⟨"1.0", 0, 0⟩, [baseApp]⟩ "app-404" "responded" none "" (5 * msPerDay) =
      ⟨⟨⟨"1.0", 0, 0⟩, [baseApp]⟩, false, none⟩ :=
  c10_missing_id ⟨⟨"1.0", 0, 0⟩, [baseApp]⟩ "app-404" "responded" none "" (5 * msPerDay)
    (by decide)
